import Mathlib

/-!
Shallow embedding of `ts/time_series.go` (package `ts` of the gotsvis
repository).

Modelling conventions:
* `time.Time` and `time.Duration` are both modelled as `Int` (nanoseconds).
  The zero `time.Time` value is the integer `0`, so `t.IsZero()` is `t = 0`;
  `Before`/`After` are `<`/`>`; `Add`/`Sub` are integer addition/subtraction.
* Go integer division on `time.Duration` truncates toward zero; it is
  modelled by `Int.tdiv`.
* `float64` samples are modelled by the inductive type `F`: the code never
  performs float arithmetic or comparisons on samples, it only stores and
  moves them, so an abstract value type with a distinguished NaN
  (`math.NaN()`) and an embedding of numerals (the Go zero value `0.0` is
  `F.val 0`) is a faithful model.
* Go runtime panics (`make` with negative length, slice index out of
  range) are modelled explicitly: the constructor returns `NTSResult.crash`
  and point access returns `none`.
* `time.Now()` is an extra explicit parameter `now` of the constructor.
-/

/-- Model of a Go `float64` sample: either NaN or an ordinary numeric value.
The Go zero value `0.0` is `F.val 0`; `math.NaN()` is `F.nan`. -/
inductive F where
  | nan : F
  | val : ℚ → F
deriving DecidableEq, Repr

/-- Model of the Go struct `TimeSeries` (fields `key`, `start`, `step`,
`data`, `filler`). -/
structure TimeSeries where
  key : String
  start : Int
  step : Int
  data : List F
  filler : F
deriving DecidableEq, Repr

/-- The three validation errors of `NewTimeSeries`, one constructor per
distinct error message in the source:
`stepZero` for the message at line 18, `startAfterEnd` for line 47,
`stepZeroUnequalBounds` for line 51. -/
inductive CtorErr where
  | stepZero : CtorErr
  | startAfterEnd : CtorErr
  | stepZeroUnequalBounds : CtorErr
deriving DecidableEq, Repr

/-- Outcome of `NewTimeSeries`: a series, a returned error, or a runtime
panic (`make([]float64, size)` with a negative `size`). -/
inductive NTSResult where
  | ok : TimeSeries → NTSResult
  | err : CtorErr → NTSResult
  | crash : NTSResult
deriving DecidableEq, Repr

/-- The effective start used by `NewTimeSeries`: `start` defaults to
`time.Now()` when the zero timestamp is passed (lines 27-29). -/
def effStart (start now : Int) : Int :=
  if start = 0 then now else start

/-- The effective end used by `NewTimeSeries`: when `end` is the zero
timestamp (unknown) and lies before `start + len(values)*step`, it is
replaced by `start + len(values)*step` (lines 30-37, using the already
substituted start). -/
def effEnd (start1 end_ step : Int) (nvalues : Nat) : Int :=
  if end_ ≠ 0 then end_
  else if end_ < start1 + nvalues * step then start1 + nvalues * step
  else end_

/-- The slice length computed at line 55: `int(end.Sub(ts.start) / ts.step)`,
Go division truncating toward zero. -/
def effSize (start1 end1 step : Int) : Int :=
  (end1 - start1).tdiv step

/-- The initialisation loop of lines 58-66 over `make([]float64, size)`:
in single-value mode every slot is the filler; otherwise slot `i` gets
`values[i]` while `i < len(values)` and the `break` leaves the remaining
slots at the Go zero value `0.0`. -/
def initData (size : Nat) (singleValue : Bool) (filler : F) (values : List F) : List F :=
  (List.range size).map fun i =>
    if singleValue then filler
    else if h : i < values.length then values[i]
    else F.val 0

/-- The filler chosen at lines 22-26: `NaN`, unless exactly one value is
supplied, in which case that value. -/
def effFiller (values : List F) : F :=
  if values.length = 1 then values.headD F.nan else F.nan

/-- Model of `NewTimeSeries` (lines 15-69).  `now` models `time.Now()`. -/
def NewTimeSeries (key : String) (start end_ step : Int) (values : List F)
    (now : Int) : NTSResult :=
  if step = 0 then .err .stepZero
  else if effStart start now > effEnd (effStart start now) end_ step values.length then
    .err .startAfterEnd
  else if effStart start now ≠ effEnd (effStart start now) end_ step values.length ∧ step = 0 then
    .err .stepZeroUnequalBounds
  else if effSize (effStart start now) (effEnd (effStart start now) end_ step values.length) step < 0 then
    .crash
  else
    .ok ⟨key, effStart start now, step,
      initData
        (effSize (effStart start now) (effEnd (effStart start now) end_ step values.length) step).toNat
        (decide (values.length = 1)) (effFiller values) values,
      effFiller values⟩

/-- `End()` (lines 100-102): `start + len(data)*step`. -/
def TimeSeries.End (ts : TimeSeries) : Int :=
  ts.start + (ts.data.length : Int) * ts.step

/-- The internal time-to-index mapping `index` (lines 146-159). -/
def TimeSeries.index (ts : TimeSeries) (t : Int) : Int :=
  if t < ts.start then -1
  else
    let e := ts.start + ((ts.data.length : Int) - 1) * ts.step
    if e < t then -1
    else (t - ts.start).tdiv ts.step

/-- `GetAt` (lines 161-167).  `none` models the runtime panic of
`ts.data[index]` when the index is outside the slice bounds. -/
def TimeSeries.GetAt (ts : TimeSeries) (t : Int) : Option (F × Bool) :=
  if ts.index t = -1 then some (F.nan, false)
  else if h : 0 ≤ ts.index t ∧ (ts.index t).toNat < ts.data.length then
    some (ts.data.get ⟨(ts.index t).toNat, h.2⟩, true)
  else none

/-- `SetAt` (lines 169-177).  `none` models the runtime panic of
`ts.data[index] = value` when the index is outside the slice bounds; the
in-place write is modelled by returning the updated series. -/
def TimeSeries.SetAt (ts : TimeSeries) (t : Int) (v : F) : Option (TimeSeries × Bool) :=
  if ts.index t = -1 then some (ts, false)
  else if 0 ≤ ts.index t ∧ (ts.index t).toNat < ts.data.length then
    some ({ ts with data := ts.data.set (ts.index t).toNat v }, true)
  else none

/-- `Data()` (lines 106-112): allocates a fresh slice and copies the samples
positionally; the returned list is the value of that fresh slice. -/
def TimeSeries.Data (ts : TimeSeries) : List F :=
  (List.range ts.data.length).map fun i => ts.data.getD i (F.val 0)

/-- `Copy()` (lines 113-122): a new struct with the same scalar fields and
`Data()` as data. -/
def TimeSeries.Copy (ts : TimeSeries) : TimeSeries :=
  { key := ts.key, start := ts.start, step := ts.step
    data := ts.Data, filler := ts.filler }

/-- `ExtendTo` (lines 124-135): no-op when `t` is before `End()`, otherwise
appends `(t + step - End()) / step` filler slots (the loop runs
`int(points)` times, so a non-positive count appends nothing). -/
def TimeSeries.ExtendTo (ts : TimeSeries) (t : Int) : TimeSeries :=
  let e := ts.End
  if t < e then ts
  else
    let points := (t + ts.step - e).tdiv ts.step
    { ts with data := ts.data ++ List.replicate points.toNat ts.filler }

/-- `ExtendBy` (lines 136-141): appends `d / step` filler slots (the loop
runs `int(points)` times, so a non-positive count appends nothing). -/
def TimeSeries.ExtendBy (ts : TimeSeries) (d : Int) : TimeSeries :=
  let points := d.tdiv ts.step
  { ts with data := ts.data ++ List.replicate points.toNat ts.filler }

/-- The `Transform` interface (lines 222-225): a named scalar mapping. -/
structure Transform where
  name : String
  transform : F → F

/-- `Transform` the method (lines 183-192): copy the series, derive the key,
map the transform over the copied data in place. -/
def TimeSeries.applyTransform (ts : TimeSeries) (tr : Transform) : TimeSeries :=
  let tts := ts.Copy
  { tts with
    key := tr.name ++ "(" ++ ts.key ++ ")"
    data := tts.data.map tr.transform }

/-- The `Iterator` struct (lines 234-237): a cursor timestamp and its
series. -/
structure Iterator where
  cursor : Int
  series : TimeSeries
deriving Repr

/-- `Iterator()` (lines 227-232): a fresh cursor at `start`. -/
def TimeSeries.iterator (ts : TimeSeries) : Iterator :=
  ⟨ts.start, ts⟩

/-- `Next()` (lines 239-243): read at the cursor via `GetAt`, then advance
the cursor by one step unconditionally. -/
def Iterator.next (it : Iterator) : Option (F × Bool) × Iterator :=
  (it.series.GetAt it.cursor, { it with cursor := it.cursor + it.series.step })

/-- Calling `Next()` `k` times, collecting the outputs in order
(`none` marks a call that panics). -/
def Iterator.run : Iterator → Nat → List (Option (F × Bool))
  | _, 0 => []
  | it, k + 1 =>
    let (r, it') := it.next
    r :: it'.run k

/-- The iterator state after `k` calls to `Next()`. -/
def Iterator.advance : Iterator → Nat → Iterator
  | it, 0 => it
  | it, k + 1 => (it.next).2.advance k

/-!
Heap model for the aliasing claims about `Data()`, `Copy()` and
`Transform`.  Go slices are references into a heap; a `Store` is the heap
of allocated `float64` slices and a `HeapTS` is a `TimeSeries` whose data
field is a reference into the store.  Allocation (`make`) appends a new
slice to the store.
-/

/-- The heap of allocated sample slices. -/
abbrev Store : Type := List (List F)

/-- Reading the slice a reference points to. -/
def Store.read (s : Store) (r : Nat) : List F :=
  List.getD s r []

/-- Writing through a reference. -/
def Store.write (s : Store) (r : Nat) (l : List F) : Store :=
  List.set s r l

/-- Allocating a fresh slice (`make`): append it to the store and return
its reference. -/
def Store.alloc (s : Store) (l : List F) : Store × Nat :=
  (s ++ [l], List.length s)

/-- A `TimeSeries` whose data slice lives in the store. -/
structure HeapTS where
  key : String
  start : Int
  step : Int
  dataRef : Nat
  filler : F

/-- The pure view of a heap series: the `TimeSeries` value obtained by
dereferencing its data slice. -/
def HeapTS.view (ts : HeapTS) (s : Store) : TimeSeries :=
  ⟨ts.key, ts.start, ts.step, s.read ts.dataRef, ts.filler⟩

/-- `Data()` in the heap model (lines 106-112): allocate a fresh slice of
the same length and copy the samples over positionally; returns the new
reference. -/
def HeapTS.dataH (ts : HeapTS) (s : Store) : Store × Nat :=
  s.alloc (ts.view s).Data

/-- `Copy()` in the heap model (lines 113-122): a new struct sharing the
scalar fields, with `Data()` as its data slice. -/
def HeapTS.copyH (ts : HeapTS) (s : Store) : Store × HeapTS :=
  let (s1, r) := ts.dataH s
  (s1, { ts with dataRef := r })

/-- `GetAt` in the heap model: dereference, then the pure `GetAt`. -/
def HeapTS.getAtH (ts : HeapTS) (s : Store) (t : Int) : Option (F × Bool) :=
  (ts.view s).GetAt t

/-- `SetAt` in the heap model: the pure `SetAt` on the dereferenced series,
with the updated data written back through the reference.  `none` models
the runtime panic. -/
def HeapTS.setAtH (ts : HeapTS) (s : Store) (t : Int) (v : F) :
    Option (Store × Bool) :=
  (( ts.view s).SetAt t v).map fun p => (s.write ts.dataRef p.1.data, p.2)

/-- `Transform` in the heap model (lines 183-192): `Copy()` allocates the
fresh slice, the key is derived, and the transform is applied in place to
the fresh slice through its reference. -/
def HeapTS.transformH (ts : HeapTS) (s : Store) (tr : Transform) :
    Store × HeapTS :=
  let (s1, tts) := ts.copyH s
  let tts2 := { tts with key := tr.name ++ "(" ++ ts.key ++ ")" }
  (s1.write tts2.dataRef ((s1.read tts2.dataRef).map tr.transform), tts2)

/-! ### Helper lemmas -/

/-- The copy loop of `Data()` reproduces the data list. -/
theorem copyLoop_eq (l : List F) :
    (List.range l.length).map (fun i => l.getD i (F.val 0)) = l := by
  induction l with
  | nil => rfl
  | cons a as ih =>
    show (List.range (as.length + 1)).map _ = _
    rw [List.range_succ_eq_map, List.map_cons, List.map_map]
    refine congrArg (List.cons a) ?_
    calc (List.range as.length).map ((fun i => List.getD (a :: as) i (F.val 0)) ∘ Nat.succ)
        = (List.range as.length).map (fun i => as.getD i (F.val 0)) := by
          refine List.map_congr_left fun i _ => ?_
          simp [List.getD]
      _ = as := ih

/-- `Data()` returns (a fresh list) value-equal to the internal data. -/
theorem TimeSeries.Data_eq (ts : TimeSeries) : ts.Data = ts.data :=
  copyLoop_eq ts.data

/-- `index` out of range, low side. -/
theorem TimeSeries.index_eq_neg_one_of_lt (ts : TimeSeries) {t : Int}
    (h : t < ts.start) : ts.index t = -1 := by
  unfold TimeSeries.index
  rw [if_pos h]

/-- `index` out of range, high side. -/
theorem TimeSeries.index_eq_neg_one_of_gt (ts : TimeSeries) {t : Int}
    (h : ts.start + ((ts.data.length : Int) - 1) * ts.step < t) :
    ts.index t = -1 := by
  unfold TimeSeries.index
  by_cases hl : t < ts.start
  · rw [if_pos hl]
  · rw [if_neg hl, if_pos h]

/-- `index` in range (positive step): the truncated quotient, with its
bounds. -/
theorem TimeSeries.index_in_range (ts : TimeSeries) {t : Int}
    (hstep : 0 < ts.step) (h1 : ts.start ≤ t)
    (h2 : t ≤ ts.start + ((ts.data.length : Int) - 1) * ts.step) :
    ts.index t = (t - ts.start).tdiv ts.step ∧
      0 ≤ (t - ts.start).tdiv ts.step ∧
      (t - ts.start).tdiv ts.step < (ts.data.length : Int) := by
  have hnn : (0 : Int) ≤ t - ts.start := by omega
  have htd : (t - ts.start).tdiv ts.step = (t - ts.start) / ts.step :=
    Int.tdiv_eq_ediv hnn (le_of_lt hstep)
  have hub : (t - ts.start).tdiv ts.step < (ts.data.length : Int) := by
    have hle : t - ts.start ≤ ((ts.data.length : Int) - 1) * ts.step := by omega
    have := Int.ediv_le_ediv hstep hle
    rw [Int.mul_ediv_cancel _ (ne_of_gt hstep)] at this
    omega
  refine ⟨?_, Int.tdiv_nonneg hnn (le_of_lt hstep), hub⟩
  unfold TimeSeries.index
  rw [if_neg (not_lt.mpr h1), if_neg (not_lt.mpr h2)]

/-- `GetAt` at an in-range timestamp (positive step). -/
theorem TimeSeries.GetAt_in_range (ts : TimeSeries) {t : Int}
    (hstep : 0 < ts.step) (h1 : ts.start ≤ t)
    (h2 : t ≤ ts.start + ((ts.data.length : Int) - 1) * ts.step) :
    ts.GetAt t =
      some (ts.data.getD ((t - ts.start).tdiv ts.step).toNat (F.val 0), true) := by
  obtain ⟨hi, hnn, hub⟩ := ts.index_in_range hstep h1 h2
  have hlt : ((t - ts.start).tdiv ts.step).toNat < ts.data.length := by omega
  unfold TimeSeries.GetAt
  simp only [hi]
  rw [if_neg (by omega), dif_pos ⟨hnn, hlt⟩, List.getD_eq_getElem _ _ hlt]
  rfl

/-- `GetAt` at an out-of-range timestamp. -/
theorem TimeSeries.GetAt_out_of_range (ts : TimeSeries) {t : Int}
    (h : t < ts.start ∨ ts.start + ((ts.data.length : Int) - 1) * ts.step < t) :
    ts.GetAt t = some (F.nan, false) := by
  unfold TimeSeries.GetAt
  rcases h with h | h
  · simp [ts.index_eq_neg_one_of_lt h]
  · simp [ts.index_eq_neg_one_of_gt h]

/-- `SetAt` at an out-of-range timestamp: returns `false`, series returned
unchanged. -/
theorem TimeSeries.SetAt_out_of_range (ts : TimeSeries) {t : Int}
    (h : t < ts.start ∨ ts.start + ((ts.data.length : Int) - 1) * ts.step < t)
    (v : F) : ts.SetAt t v = some (ts, false) := by
  unfold TimeSeries.SetAt
  rcases h with h | h
  · simp [ts.index_eq_neg_one_of_lt h]
  · simp [ts.index_eq_neg_one_of_gt h]

/-- `SetAt` at an in-range timestamp (positive step): overwrites the mapped
sample, returns `true`. -/
theorem TimeSeries.SetAt_in_range (ts : TimeSeries) {t : Int}
    (hstep : 0 < ts.step) (h1 : ts.start ≤ t)
    (h2 : t ≤ ts.start + ((ts.data.length : Int) - 1) * ts.step) (v : F) :
    ts.SetAt t v =
      some ({ ts with data := ts.data.set ((t - ts.start).tdiv ts.step).toNat v }, true) := by
  obtain ⟨hi, hnn, hub⟩ := ts.index_in_range hstep h1 h2
  have hlt : ((t - ts.start).tdiv ts.step).toNat < ts.data.length := by omega
  unfold TimeSeries.SetAt
  simp only [hi]
  rw [if_neg (by omega), if_pos ⟨hnn, hlt⟩]

/-! ### Claim theorems -/

/-- C1: for a series with positive step and data of length `n`, `GetAt t`
returns `(data[trunc((t - start) / step)], true)` exactly when
`start ≤ t ≤ start + (n-1)*step`, and `(NaN, false)` for every other
timestamp; the truncated quotient snaps non-boundary timestamps to the
preceding sample. -/
theorem C1_getAt_contract (ts : TimeSeries) (hstep : 0 < ts.step) (t : Int) :
    (ts.start ≤ t ∧ t ≤ ts.start + ((ts.data.length : Int) - 1) * ts.step →
      ts.GetAt t =
        some (ts.data.getD ((t - ts.start).tdiv ts.step).toNat (F.val 0), true)) ∧
    (¬ (ts.start ≤ t ∧ t ≤ ts.start + ((ts.data.length : Int) - 1) * ts.step) →
      ts.GetAt t = some (F.nan, false)) := by
  constructor
  · rintro ⟨h1, h2⟩
    exact ts.GetAt_in_range hstep h1 h2
  · intro h
    rcases not_and_or.mp h with h | h
    · exact ts.GetAt_out_of_range (Or.inl (not_le.mp h))
    · exact ts.GetAt_out_of_range (Or.inr (not_le.mp h))

/-- Witness for C1 at the series `start 0, step 2, data [5, 6]`: the
non-boundary in-range timestamp 1 snaps to index 0, and timestamp 3
(strictly after the last valid sample timestamp 2) is not found. -/
theorem C1_getAt_contract_witness :
    TimeSeries.GetAt ⟨"k", 0, 2, [F.val 5, F.val 6], F.nan⟩ 1 = some (F.val 5, true) ∧
    TimeSeries.GetAt ⟨"k", 0, 2, [F.val 5, F.val 6], F.nan⟩ 3 = some (F.nan, false) := by
  refine ⟨?_, ?_⟩
  · have h := (C1_getAt_contract ⟨"k", 0, 2, [F.val 5, F.val 6], F.nan⟩ (by decide) 1).1
      (by constructor <;> decide)
    rw [h]
    decide
  · exact (C1_getAt_contract ⟨"k", 0, 2, [F.val 5, F.val 6], F.nan⟩ (by decide) 3).2
      (by decide)

/-- Counterexample to C2 as stated: the series produced by
`NewTimeSeries("x", 1, 1, -5)` has step `-5` and no data, so every
timestamp is out of range; yet `SetAt(2, 0.0)` computes index
`(2-1)/(-5) = 0`, passes both range guards, and panics on the empty slice
(`none`) instead of returning `false` with the series unchanged. -/
theorem C2_setAt_contract_cex :
    NewTimeSeries "x" 1 1 (-5) [] 0 = .ok ⟨"x", 1, -5, [], F.nan⟩ ∧
    TimeSeries.SetAt ⟨"x", 1, -5, [], F.nan⟩ 2 (F.val 0) = none := by
  decide

/-- C2 amended: for every series with positive step, out-of-range `SetAt`
returns `false` leaving the series unchanged, and in-range `SetAt`
overwrites exactly the mapped sample, returns `true`, and a subsequent
`GetAt` of the same timestamp yields the new value. -/
theorem C2_setAt_contract (ts : TimeSeries) (hstep : 0 < ts.step) (t : Int) (v : F) :
    (¬ (ts.start ≤ t ∧ t ≤ ts.start + ((ts.data.length : Int) - 1) * ts.step) →
      ts.SetAt t v = some (ts, false)) ∧
    (ts.start ≤ t ∧ t ≤ ts.start + ((ts.data.length : Int) - 1) * ts.step →
      ∃ ts', ts.SetAt t v = some (ts', true) ∧
        ts'.key = ts.key ∧ ts'.start = ts.start ∧ ts'.step = ts.step ∧
        ts'.filler = ts.filler ∧
        ts'.data = ts.data.set ((t - ts.start).tdiv ts.step).toNat v ∧
        ts'.GetAt t = some (v, true)) := by
  constructor
  · intro h
    rcases not_and_or.mp h with h | h
    · exact ts.SetAt_out_of_range (Or.inl (not_le.mp h)) v
    · exact ts.SetAt_out_of_range (Or.inr (not_le.mp h)) v
  · rintro ⟨h1, h2⟩
    obtain ⟨hi, hnn, hub⟩ := ts.index_in_range hstep h1 h2
    have hlt : ((t - ts.start).tdiv ts.step).toNat < ts.data.length := by omega
    refine ⟨_, ts.SetAt_in_range hstep h1 h2 v, rfl, rfl, rfl, rfl, rfl, ?_⟩
    set ts' : TimeSeries :=
      { ts with data := ts.data.set ((t - ts.start).tdiv ts.step).toNat v } with hts'
    have hlen : ts'.data.length = ts.data.length := List.length_set ..
    have h2' : t ≤ ts'.start + ((ts'.data.length : Int) - 1) * ts'.step := by
      rw [hlen]
      exact h2
    have hget := ts'.GetAt_in_range (t := t) hstep h1 h2'
    rw [hget]
    have hlt' : ((t - ts'.start).tdiv ts'.step).toNat < ts'.data.length := by
      rw [hlen]
      exact hlt
    rw [List.getD_eq_getElem _ _ hlt']
    show some ((ts.data.set _ v)[_], true) = some (v, true)
    rw [List.getElem_set_self]

/-- Counterexample to C3 as stated: a negative step with end after start
does not always succeed.  `NewTimeSeries("x", 1, 11, -1)` passes all three
validation checks but computes the slice length `(11-1)/(-1) = -10`, and
`make([]float64, -10)` panics at runtime instead of constructing a
series. -/
theorem C3_constructor_failures_cex :
    NewTimeSeries "x" 1 11 (-1) [] 0 = .crash := by
  decide

/-- C3 amended: `NewTimeSeries` returns an error exactly for the listed
validation reasons (zero step, effective start after effective end), with
the distinct errors as listed and the third (redundant) zero-step check
unreachable; for every other input whose computed length is nonnegative the
construction succeeds, while a negative computed length (negative step with
end sufficiently after start) panics; and for a series with positive step
the point operations `GetAt` and `SetAt` never fail. -/
theorem C3_constructor_failure_modes (key : String) (start end_ step now : Int)
    (values : List F) :
    (NewTimeSeries key start end_ step values now = .err .stepZero ↔ step = 0) ∧
    (NewTimeSeries key start end_ step values now = .err .startAfterEnd ↔
      step ≠ 0 ∧
        effEnd (effStart start now) end_ step values.length < effStart start now) ∧
    (NewTimeSeries key start end_ step values now ≠ .err .stepZeroUnequalBounds) ∧
    (NewTimeSeries key start end_ step values now = .crash ↔
      step ≠ 0 ∧
        effStart start now ≤ effEnd (effStart start now) end_ step values.length ∧
        effSize (effStart start now) (effEnd (effStart start now) end_ step values.length) step < 0) ∧
    (step ≠ 0 →
      effStart start now ≤ effEnd (effStart start now) end_ step values.length →
      0 ≤ effSize (effStart start now) (effEnd (effStart start now) end_ step values.length) step →
      ∃ ts, NewTimeSeries key start end_ step values now = .ok ts) ∧
    (∀ ts : TimeSeries, 0 < ts.step → ∀ t v,
      (ts.GetAt t).isSome ∧ (ts.SetAt t v).isSome) := by
  refine ⟨?_, ?_, ?_, ?_, ?_, ?_⟩
  · unfold NewTimeSeries
    split_ifs with h1 h2 h3 h4 <;> simp_all
  · unfold NewTimeSeries
    split_ifs with h1 h2 h3 h4 <;> simp_all
  · unfold NewTimeSeries
    split_ifs with h1 h2 h3 h4 <;> simp_all
  · unfold NewTimeSeries
    split_ifs with h1 h2 h3 h4 <;> simp_all
  · intro hs hle hsz
    unfold NewTimeSeries
    split_ifs with h1 h2 h3 h4
    · exact absurd h1 hs
    · omega
    · exact absurd h3.2 hs
    · omega
    · exact ⟨_, rfl⟩
  · intro ts hstep t v
    by_cases h : ts.start ≤ t ∧ t ≤ ts.start + ((ts.data.length : Int) - 1) * ts.step
    · rw [ts.GetAt_in_range hstep h.1 h.2, ts.SetAt_in_range hstep h.1 h.2 v]
      exact ⟨rfl, rfl⟩
    · rcases not_and_or.mp h with h | h
      · rw [ts.GetAt_out_of_range (Or.inl (not_le.mp h)),
          ts.SetAt_out_of_range (Or.inl (not_le.mp h)) v]
        exact ⟨rfl, rfl⟩
      · rw [ts.GetAt_out_of_range (Or.inr (not_le.mp h)),
          ts.SetAt_out_of_range (Or.inr (not_le.mp h)) v]
        exact ⟨rfl, rfl⟩

/-- Witness for C3 at concrete inputs: step 3 with bounds 2..8 constructs a
series, and step 0 yields the first validation error. -/
theorem C3_constructor_failure_modes_witness :
    (∃ ts, NewTimeSeries "x" 2 8 3 [] 5 = .ok ts) ∧
    NewTimeSeries "x" 2 8 0 [] 5 = .err .stepZero := by
  refine ⟨(C3_constructor_failure_modes "x" 2 8 3 5 []).2.2.2.2.1
    (by decide) (by decide) (by decide), ?_⟩
  exact (C3_constructor_failure_modes "x" 2 8 0 5 []).1.mpr rfl

/-- Counterexample to C4 as stated: with the zero start timestamp (and
`time.Now()` returning 100), step 1 and start 0 ≤ end 10, the claim
promises a 10-sample series of the value 7; the code substitutes `now` for
the zero start and rejects the call with the start-after-end error. -/
theorem C4_uniform_fill_cex :
    NewTimeSeries "x" 0 10 1 [F.val 7] 100 = .err .startAfterEnd := by
  decide

/-- C4 amended: when exactly one value `v` is supplied, the step is
positive, start and end are non-zero timestamps (so neither defaulting
rule fires), and start ≤ end, the constructed series has exactly
`trunc((end - start) / step)` samples and every sample equals `v`. -/
theorem C4_uniform_fill (key : String) (start end_ step now : Int) (v : F)
    (hstart : start ≠ 0) (hend : end_ ≠ 0) (hstep : 0 < step)
    (hle : start ≤ end_) :
    ∃ ts, NewTimeSeries key start end_ step [v] now = .ok ts ∧
      (ts.data.length : Int) = (end_ - start).tdiv step ∧
      ∀ x ∈ ts.data, x = v := by
  have hs1 : effStart start now = start := if_neg hstart
  have he1 : effEnd start end_ step 1 = end_ := by
    unfold effEnd
    rw [if_pos hend]
  have hsz : effSize start end_ step = (end_ - start).tdiv step := rfl
  have hnn : 0 ≤ (end_ - start).tdiv step :=
    Int.tdiv_nonneg (by omega) (le_of_lt hstep)
  unfold NewTimeSeries
  simp only [List.length_singleton, hs1, he1, hsz]
  split_ifs with h1 h2 h3 h4
  · omega
  · omega
  · exact absurd h3.2 (by omega)
  · omega
  · refine ⟨_, rfl, ?_, ?_⟩
    · show ((initData _ _ _ _).length : Int) = _
      unfold initData
      rw [List.length_map, List.length_range, Int.toNat_of_nonneg hnn]
    · intro x hx
      unfold initData at hx
      rw [List.mem_map] at hx
      obtain ⟨i, _, hi⟩ := hx
      simpa [effFiller] using hi.symm

/-- Witness for C4, the concrete scenario of the claim:
`NewTimeSeries("x", t0, t0 + 5*step, step, 7.0)` with `t0 = 100`,
`step = 10` yields a 5-element series where every sample is 7. -/
theorem C4_uniform_fill_witness :
    ∃ ts, NewTimeSeries "x" 100 150 10 [F.val 7] 0 = .ok ts ∧
      (ts.data.length : Int) = (150 - 100 : Int).tdiv 10 ∧
      ∀ x ∈ ts.data, x = F.val 7 :=
  C4_uniform_fill "x" 100 150 10 0 (F.val 7)
    (by decide) (by decide) (by decide) (by decide)

/-- C5: in the multi-value branch (zero or at least two values), every
sample with index below `len(values)` equals the corresponding supplied
value, and every sample beyond `len(values)` is the Go zero value `0.0`,
not the NaN filler. -/
theorem C5_multivalue_zero_fill (key : String) (start end_ step now : Int)
    (values : List F) (ts : TimeSeries)
    (hok : NewTimeSeries key start end_ step values now = .ok ts)
    (hmulti : values.length ≠ 1) :
    ∀ i (h : i < ts.data.length),
      ts.data[i] = if h2 : i < values.length then values[i] else F.val 0 := by
  have hsv : decide (values.length = 1) = false := decide_eq_false hmulti
  have hd : ts.data =
      initData
        (effSize (effStart start now)
          (effEnd (effStart start now) end_ step values.length) step).toNat
        (decide (values.length = 1)) (effFiller values) values := by
    unfold NewTimeSeries at hok
    split_ifs at hok
    injection hok with h
    rw [← h]
  intro i h
  have h' : i < (initData
      (effSize (effStart start now)
        (effEnd (effStart start now) end_ step values.length) step).toNat
      (decide (values.length = 1)) (effFiller values) values).length := by
    rw [← hd]
    exact h
  have : ts.data[i] = (initData _ _ _ _)[i] := by
    congr 1
  rw [this]
  unfold initData
  simp only [List.getElem_map, List.getElem_range, hsv, Bool.false_eq_true, if_false]

/-- Witness for C5: `NewTimeSeries("x", 1, 6, 1, 1.0, 2.0)` produces
`[1, 2, 0, 0, 0]`, whose sample at index 3 is the zero value. -/
theorem C5_multivalue_zero_fill_witness :
    (⟨"x", 1, 1, [F.val 1, F.val 2, F.val 0, F.val 0, F.val 0], F.nan⟩
        : TimeSeries).data.getD 3 F.nan = F.val 0 := by
  have h := C5_multivalue_zero_fill "x" 1 6 1 0 [F.val 1, F.val 2]
    ⟨"x", 1, 1, [F.val 1, F.val 2, F.val 0, F.val 0, F.val 0], F.nan⟩
    (by decide) (by decide) 3 (by decide)
  rw [List.getD_eq_getElem _ _ (by decide)]
  simp only [h]
  decide

/-- Truncated division of a nonpositive dividend by a positive divisor is
nonpositive (so the Go loop bound `int(points)` appends nothing). -/
theorem tdiv_nonpos_of_nonpos {d s : Int} (hd : d ≤ 0) (hs : 0 < s) :
    d.tdiv s ≤ 0 := by
  have h := Int.tdiv_nonneg (a := -d) (b := s) (by omega) (le_of_lt hs)
  rw [Int.neg_tdiv] at h
  omega

/-- Counterexample to C6 as stated: for a series with step 2 and a request
of duration -3, the claim demands a length change of
`floor(-3/2) = -2`; the code appends zero samples (the loop bound
`int(points)` is negative), so the length is unchanged. -/
theorem C6_extendBy_cex :
    ¬ (((TimeSeries.ExtendBy ⟨"x", 0, 2, [], F.nan⟩ (-3)).data.length : Int) =
        ((⟨"x", 0, 2, [], F.nan⟩ : TimeSeries).data.length : Int) +
          Int.fdiv (-3) 2) := by
  decide

/-- C6 amended: for positive step, `ExtendBy(d)` leaves all scalar fields
unchanged and appends exactly `max(0, trunc(d/step))` filler slots; for
`d ≥ 0` that count equals `floor(d/Step())` as the claim states, and a
request of non-positive magnitude appends zero elements (a no-op). -/
theorem C6_extendBy_length (ts : TimeSeries) (hstep : 0 < ts.step) (d : Int) :
    (ts.ExtendBy d).key = ts.key ∧ (ts.ExtendBy d).start = ts.start ∧
    (ts.ExtendBy d).step = ts.step ∧ (ts.ExtendBy d).filler = ts.filler ∧
    (ts.ExtendBy d).data = ts.data ++ List.replicate (d.tdiv ts.step).toNat ts.filler ∧
    (0 ≤ d → ((ts.ExtendBy d).data.length : Int) =
      (ts.data.length : Int) + Int.fdiv d ts.step) ∧
    (d ≤ 0 → (ts.ExtendBy d).data = ts.data) := by
  have hdata : (ts.ExtendBy d).data =
      ts.data ++ List.replicate (d.tdiv ts.step).toNat ts.filler := rfl
  refine ⟨rfl, rfl, rfl, rfl, hdata, ?_, ?_⟩
  · intro hd
    have hfd : Int.fdiv d ts.step = d.tdiv ts.step :=
      Int.fdiv_eq_tdiv hd (le_of_lt hstep)
    have hnn : 0 ≤ d.tdiv ts.step := Int.tdiv_nonneg hd (le_of_lt hstep)
    rw [hdata, List.length_append, List.length_replicate, hfd]
    push_cast
    rw [Int.toNat_of_nonneg hnn]
  · intro hd
    have h0 : (d.tdiv ts.step).toNat = 0 := by
      have := tdiv_nonpos_of_nonpos hd hstep
      omega
    rw [hdata, h0, List.replicate_zero, List.append_nil]

/-- Witness for C6: step 2, data of one sample, `ExtendBy(5)` appends
`trunc(5/2) = 2` filler slots. -/
theorem C6_extendBy_length_witness :
    (TimeSeries.ExtendBy ⟨"x", 0, 2, [F.val 1], F.nan⟩ 5).data =
      [F.val 1] ++ List.replicate ((5 : Int).tdiv 2).toNat F.nan :=
  (C6_extendBy_length ⟨"x", 0, 2, [F.val 1], F.nan⟩ (by decide) 5).2.2.2.2.1

/-- C7: for positive step, `ExtendTo(t)` is a no-op when `t` precedes
`End()`, and otherwise (including `t = End()`) appends exactly
`trunc((t + step - End()) / step)` filler samples, leaving key, start,
step and filler unchanged. -/
theorem C7_extendTo (ts : TimeSeries) (hstep : 0 < ts.step) (t : Int) :
    (t < ts.End → ts.ExtendTo t = ts) ∧
    (ts.End ≤ t →
      (ts.ExtendTo t).key = ts.key ∧ (ts.ExtendTo t).start = ts.start ∧
      (ts.ExtendTo t).step = ts.step ∧ (ts.ExtendTo t).filler = ts.filler ∧
      (ts.ExtendTo t).data =
        ts.data ++ List.replicate ((t + ts.step - ts.End).tdiv ts.step).toNat ts.filler ∧
      ((ts.ExtendTo t).data.length : Int) =
        (ts.data.length : Int) + (t + ts.step - ts.End).tdiv ts.step) := by
  constructor
  · intro h
    unfold TimeSeries.ExtendTo
    rw [if_pos h]
  · intro h
    have hext : ts.ExtendTo t =
        { ts with data := ts.data ++
            List.replicate ((t + ts.step - ts.End).tdiv ts.step).toNat ts.filler } := by
      unfold TimeSeries.ExtendTo
      rw [if_neg (not_lt.mpr h)]
    have hnn : 0 ≤ (t + ts.step - ts.End).tdiv ts.step :=
      Int.tdiv_nonneg (by omega) (le_of_lt hstep)
    rw [hext]
    refine ⟨rfl, rfl, rfl, rfl, rfl, ?_⟩
    rw [List.length_append, List.length_replicate]
    push_cast
    rw [Int.toNat_of_nonneg hnn]

/-- Witness for C7: step 2, one sample, `End() = 2`; `ExtendTo(2)` (t equal
to the current end) appends `trunc((2+2-2)/2) = 1` filler slot. -/
theorem C7_extendTo_witness :
    (TimeSeries.ExtendTo ⟨"x", 0, 2, [F.val 1], F.nan⟩ 2).data =
      [F.val 1] ++
        List.replicate
          (((2 : Int) + 2 - TimeSeries.End ⟨"x", 0, 2, [F.val 1], F.nan⟩).tdiv 2).toNat
          F.nan :=
  ((C7_extendTo ⟨"x", 0, 2, [F.val 1], F.nan⟩ (by decide) 2).2 (by decide)).2.2.2.2.1

/-- `GetAt` at the exact step boundary `start + j*step` (positive step):
sample `j` when `j` is a valid index, not-found otherwise. -/
theorem TimeSeries.GetAt_boundary (ts : TimeSeries) (hstep : 0 < ts.step) (j : Nat) :
    ts.GetAt (ts.start + (j : Int) * ts.step) =
      if j < ts.data.length then some (ts.data.getD j (F.val 0), true)
      else some (F.nan, false) := by
  have hstep0 : ts.step ≠ 0 := ne_of_gt hstep
  by_cases hj : j < ts.data.length
  · rw [if_pos hj]
    have hj1 : (j : Int) ≤ (ts.data.length : Int) - 1 := by
      have : (j : Int) < (ts.data.length : Int) := by exact_mod_cast hj
      omega
    have h1 : ts.start ≤ ts.start + (j : Int) * ts.step := by
      have : 0 ≤ (j : Int) * ts.step := mul_nonneg (Int.natCast_nonneg j) (le_of_lt hstep)
      omega
    have h2 : ts.start + (j : Int) * ts.step ≤
        ts.start + ((ts.data.length : Int) - 1) * ts.step := by
      have := mul_le_mul_of_nonneg_right hj1 (le_of_lt hstep)
      linarith
    rw [ts.GetAt_in_range hstep h1 h2]
    have hq : (ts.start + (j : Int) * ts.step - ts.start).tdiv ts.step = (j : Int) := by
      have : ts.start + (j : Int) * ts.step - ts.start = (j : Int) * ts.step := by ring
      rw [this, Int.mul_tdiv_cancel _ hstep0]
    rw [hq, Int.toNat_ofNat]
  · rw [if_neg hj]
    refine ts.GetAt_out_of_range (Or.inr ?_)
    have hj1 : (ts.data.length : Int) - 1 < (j : Int) := by
      have : (ts.data.length : Int) ≤ (j : Int) := by exact_mod_cast not_lt.mp hj
      omega
    have := mul_lt_mul_of_pos_right hj1 hstep
    linarith

/-- Running the iterator `k` times from the boundary cursor
`start + j*step`: each call reads sample `j + i` when valid, not-found
otherwise. -/
theorem Iterator.run_offset (ts : TimeSeries) (hstep : 0 < ts.step) :
    ∀ (k j : Nat), Iterator.run ⟨ts.start + (j : Int) * ts.step, ts⟩ k =
      (List.range k).map (fun i =>
        if j + i < ts.data.length then some (ts.data.getD (j + i) (F.val 0), true)
        else some (F.nan, false))
  | 0, _ => rfl
  | k + 1, j => by
    show ts.GetAt (ts.start + (j : Int) * ts.step) ::
        Iterator.run ⟨ts.start + (j : Int) * ts.step + ts.step, ts⟩ k = _
    have hc : ts.start + (j : Int) * ts.step + ts.step =
        ts.start + ((j + 1 : Nat) : Int) * ts.step := by
      push_cast
      ring
    rw [hc, Iterator.run_offset ts hstep k (j + 1),
      List.range_succ_eq_map, List.map_cons, List.map_map]
    refine congrArg₂ List.cons ?_ ?_
    · rw [ts.GetAt_boundary hstep j]
      simp
    · refine List.map_congr_left fun i _ => ?_
      have hji : j + (i + 1) = (j + 1) + i := by omega
      simp [Function.comp_def, hji]

/-- C9: for a series of length `N` with positive step, a fresh iterator
run `N + m` times yields exactly the data values in order, each with
`found = true`, followed by `m` results with `found = false`; and every
`Next()` call advances the cursor by exactly one step (keeping the same
series) regardless of whether the read succeeded. -/
theorem C9_iterator_run (ts : TimeSeries) (hstep : 0 < ts.step) (m : Nat) :
    ts.iterator.run (ts.data.length + m) =
      ts.data.map (fun v => some ((v, true) : F × Bool)) ++
        List.replicate m (some (F.nan, false)) ∧
    (∀ it : Iterator, (it.next).2.cursor = it.cursor + it.series.step ∧
      (it.next).2.series = it.series) := by
  refine ⟨?_, fun it => ⟨rfl, rfl⟩⟩
  have h0 : ts.iterator = ⟨ts.start + ((0 : Nat) : Int) * ts.step, ts⟩ := by
    unfold TimeSeries.iterator
    norm_num
  rw [h0, Iterator.run_offset ts hstep (ts.data.length + m) 0]
  simp only [Nat.zero_add]
  rw [List.range_add, List.map_append]
  refine congrArg₂ (· ++ ·) ?_ ?_
  · calc (List.range ts.data.length).map (fun i =>
            if i < ts.data.length then some ((ts.data.getD i (F.val 0), true) : F × Bool)
            else some (F.nan, false))
        = (List.range ts.data.length).map (fun i =>
            some ((ts.data.getD i (F.val 0), true) : F × Bool)) := by
          refine List.map_congr_left fun i hi => ?_
          rw [if_pos (List.mem_range.mp hi)]
      _ = ((List.range ts.data.length).map (fun i => ts.data.getD i (F.val 0))).map
            (fun v => some ((v, true) : F × Bool)) := by
          rw [List.map_map]
          rfl
      _ = ts.data.map (fun v => some ((v, true) : F × Bool)) := by
          rw [copyLoop_eq]
  · calc ((List.range m).map (ts.data.length + ·)).map (fun i =>
            if i < ts.data.length then some ((ts.data.getD i (F.val 0), true) : F × Bool)
            else some (F.nan, false))
        = (List.range m).map (fun _ => some ((F.nan, false) : F × Bool)) := by
          rw [List.map_map]
          refine List.map_congr_left fun i _ => ?_
          have : ¬ ts.data.length + i < ts.data.length := by omega
          simp [Function.comp_def, this]
      _ = List.replicate m (some (F.nan, false)) := by
          rw [List.map_const', List.length_range]

/-- Witness for C9: the two-sample series `[1, 2]` with step 2, run three
times from a fresh iterator: both samples in order with `found`, then a
not-found result. -/
theorem C9_iterator_run_witness :
    (TimeSeries.iterator ⟨"x", 0, 2, [F.val 1, F.val 2], F.nan⟩).run 3 =
      [some (F.val 1, true), some (F.val 2, true), some (F.nan, false)] := by
  have h := (C9_iterator_run ⟨"x", 0, 2, [F.val 1, F.val 2], F.nan⟩ (by decide) 1).1
  simpa using h

/-- Reading the slot just allocated at the end of the store. -/
theorem Store.read_append_self (s : Store) (l : List F) :
    (s ++ [l]).read s.length = l := by
  unfold Store.read
  rw [List.getD_eq_getElem?_getD, List.getElem?_append_right (Nat.le_refl _),
    Nat.sub_self]
  rfl

/-- Allocation does not change existing slots. -/
theorem Store.read_append_lt (s : Store) (l : List F) {r : Nat}
    (h : r < s.length) : (s ++ [l]).read r = s.read r := by
  unfold Store.read
  rw [List.getD_eq_getElem?_getD, List.getElem?_append_left h,
    List.getD_eq_getElem?_getD]

/-- Reading back a slot just written. -/
theorem Store.read_write_self (s : Store) {r : Nat} (h : r < s.length)
    (l : List F) : (s.write r l).read r = l := by
  unfold Store.read Store.write
  rw [List.getD_eq_getElem?_getD, List.getElem?_set_self h]
  rfl

/-- Writing one slot does not change any other slot. -/
theorem Store.read_write_ne (s : Store) {r r' : Nat} (h : r ≠ r')
    (l : List F) : (s.write r l).read r' = s.read r' := by
  unfold Store.read Store.write
  rw [List.getD_eq_getElem?_getD, List.getElem?_set_ne h,
    List.getD_eq_getElem?_getD]

/-- The store and reference produced by `copyH`. -/
theorem HeapTS.copyH_eq (ts : HeapTS) (s : Store) :
    ts.copyH s = (s ++ [(ts.view s).Data], { ts with dataRef := s.length }) :=
  rfl

/-- `Data()` of the dereferenced view is the referenced slice's value. -/
theorem HeapTS.view_Data (ts : HeapTS) (s : Store) :
    (ts.view s).Data = s.read ts.dataRef :=
  (ts.view s).Data_eq

/-- C8: `Transform` produces a new series with the same start, step and
filler, the derived key `name ++ "(" ++ key ++ ")"`, and data equal to the
pointwise image of the original data under the transform (hence of equal
length with i-th sample `tr.transform original[i]`); the original series'
slice is unchanged afterwards. -/
theorem C8_transform (σ : Store) (ts : HeapTS) (tr : Transform)
    (h : ts.dataRef < σ.length) :
    (ts.transformH σ tr).2.key = tr.name ++ "(" ++ ts.key ++ ")" ∧
    (ts.transformH σ tr).2.start = ts.start ∧
    (ts.transformH σ tr).2.step = ts.step ∧
    (ts.transformH σ tr).2.filler = ts.filler ∧
    (ts.transformH σ tr).1.read (ts.transformH σ tr).2.dataRef =
      (σ.read ts.dataRef).map tr.transform ∧
    ((ts.transformH σ tr).1.read (ts.transformH σ tr).2.dataRef).length =
      (σ.read ts.dataRef).length ∧
    (∀ i, i < (σ.read ts.dataRef).length →
      ((ts.transformH σ tr).1.read (ts.transformH σ tr).2.dataRef).getD i (F.val 0) =
        tr.transform ((σ.read ts.dataRef).getD i (F.val 0))) ∧
    (ts.transformH σ tr).1.read ts.dataRef = σ.read ts.dataRef := by
  have hne : σ.length ≠ ts.dataRef := by omega
  have hs1 : (ts.transformH σ tr).1 =
      (σ ++ [(ts.view σ).Data]).write σ.length
        (((σ ++ [(ts.view σ).Data]).read σ.length).map tr.transform) := rfl
  have hr : (ts.transformH σ tr).2.dataRef = σ.length := rfl
  have hread : (σ ++ [(ts.view σ).Data]).read σ.length = σ.read ts.dataRef := by
    rw [Store.read_append_self, ts.view_Data]
  have hlen : σ.length < (σ ++ [(ts.view σ).Data]).length := by
    simp
  have hmain : (ts.transformH σ tr).1.read (ts.transformH σ tr).2.dataRef =
      (σ.read ts.dataRef).map tr.transform := by
    rw [hs1, hr, Store.read_write_self _ hlen, hread]
  refine ⟨rfl, rfl, rfl, rfl, hmain, ?_, ?_, ?_⟩
  · rw [hmain, List.length_map]
  · intro i hi
    rw [hmain]
    have hi' : i < ((σ.read ts.dataRef).map tr.transform).length := by
      rw [List.length_map]
      exact hi
    rw [List.getD_eq_getElem _ _ hi', List.getD_eq_getElem _ _ hi,
      List.getElem_map]
  · rw [hs1, Store.read_write_ne _ hne, Store.read_append_lt _ _ h]

/-- Witness for C8: a one-sample store, the identity transform named
`"id"`: the derived series reads the mapped data and carries the derived
key. -/
theorem C8_transform_witness :
    ((⟨"x", 0, 1, 0, F.nan⟩ : HeapTS).transformH [[F.val 1]]
        ⟨"id", fun v => v⟩).2.key = "id" ++ "(" ++ "x" ++ ")" :=
  (C8_transform [[F.val 1]] ⟨"x", 0, 1, 0, F.nan⟩ ⟨"id", fun v => v⟩
    (by decide)).1

/-- Inversion for a successful heap `SetAt`: the new store is the old one
with the written slice at the series' own reference. -/
theorem HeapTS.setAtH_some (ts : HeapTS) (s : Store) (t : Int) (v : F)
    {σ2 : Store} {b : Bool} (h : ts.setAtH s t v = some (σ2, b)) :
    ∃ ts', (ts.view s).SetAt t v = some (ts', b) ∧
      σ2 = s.write ts.dataRef ts'.data := by
  unfold HeapTS.setAtH at h
  rw [Option.map_eq_some'] at h
  obtain ⟨p, hp, hfp⟩ := h
  have hσ : s.write ts.dataRef p.1.data = σ2 := congrArg Prod.fst hfp
  have hb : p.2 = b := congrArg Prod.snd hfp
  refine ⟨p.1, ?_, hσ.symm⟩
  rw [hp, ← hb]

/-- C10: `Copy()` produces a series with equal key, start, step, filler and
data; a successful `SetAt` on the copy leaves every `GetAt` of the original
unchanged, and vice versa; and mutating the slice returned by `Data()`
never affects the original's `GetAt` results. -/
theorem C10_copy_independent (σ : Store) (ts : HeapTS) (h : ts.dataRef < σ.length) :
    ((ts.copyH σ).2.key = ts.key ∧ (ts.copyH σ).2.start = ts.start ∧
      (ts.copyH σ).2.step = ts.step ∧ (ts.copyH σ).2.filler = ts.filler ∧
      (ts.copyH σ).1.read (ts.copyH σ).2.dataRef = σ.read ts.dataRef) ∧
    (∀ t v σ2 b, HeapTS.setAtH (ts.copyH σ).2 (ts.copyH σ).1 t v = some (σ2, b) →
      ∀ u, ts.getAtH σ2 u = ts.getAtH σ u) ∧
    (∀ t v σ2 b, ts.setAtH (ts.copyH σ).1 t v = some (σ2, b) →
      ∀ u, HeapTS.getAtH (ts.copyH σ).2 σ2 u =
        HeapTS.getAtH (ts.copyH σ).2 (ts.copyH σ).1 u) ∧
    (∀ l u, ts.getAtH ((ts.dataH σ).1.write (ts.dataH σ).2 l) u = ts.getAtH σ u) := by
  have hne : ts.dataRef ≠ σ.length := by omega
  have hcs : (ts.copyH σ).1 = σ ++ [(ts.view σ).Data] := rfl
  have hcr : (ts.copyH σ).2.dataRef = σ.length := rfl
  have hread1 : (ts.copyH σ).1.read σ.length = σ.read ts.dataRef := by
    rw [hcs, Store.read_append_self, ts.view_Data]
  have hread2 : (ts.copyH σ).1.read ts.dataRef = σ.read ts.dataRef := by
    rw [hcs, Store.read_append_lt _ _ h]
  refine ⟨⟨rfl, rfl, rfl, rfl, ?_⟩, ?_, ?_, ?_⟩
  · rw [hcr, hread1]
  · intro t v σ2 b hset u
    obtain ⟨ts', _, hσ2⟩ := HeapTS.setAtH_some _ _ _ _ hset
    have hv : ts.view σ2 = ts.view σ := by
      unfold HeapTS.view
      rw [hσ2, hcr, Store.read_write_ne _ (by omega), hread2]
    unfold HeapTS.getAtH
    rw [hv]
  · intro t v σ2 b hset u
    obtain ⟨ts', _, hσ2⟩ := HeapTS.setAtH_some _ _ _ _ hset
    have hv : HeapTS.view (ts.copyH σ).2 σ2 = HeapTS.view (ts.copyH σ).2 (ts.copyH σ).1 := by
      unfold HeapTS.view
      rw [hσ2, hcr, Store.read_write_ne _ hne]
    unfold HeapTS.getAtH
    rw [hv]
  · intro l u
    have hv : ts.view ((ts.dataH σ).1.write (ts.dataH σ).2 l) = ts.view σ := by
      unfold HeapTS.view
      have hd1 : (ts.dataH σ).1 = σ ++ [(ts.view σ).Data] := rfl
      have hd2 : (ts.dataH σ).2 = σ.length := rfl
      rw [hd1, hd2, Store.read_write_ne _ (by omega), Store.read_append_lt _ _ h]
    unfold HeapTS.getAtH
    rw [hv]

/-- Witness for C10: a one-slot store holding `[1]`; the copy's fresh slice
holds the same samples as the original's. -/
theorem C10_copy_independent_witness :
    ((⟨"x", 0, 1, 0, F.nan⟩ : HeapTS).copyH [[F.val 1]]).1.read
        ((⟨"x", 0, 1, 0, F.nan⟩ : HeapTS).copyH [[F.val 1]]).2.dataRef =
      Store.read [[F.val 1]] 0 :=
  (C10_copy_independent [[F.val 1]] ⟨"x", 0, 1, 0, F.nan⟩ (by decide)).1.2.2.2.2

/-- Witness for C2 (amended): on the series `start 0, step 2, data [5, 6]`,
`SetAt(2, 9)` overwrites sample 1 and `SetAt(5, 9)` is a refused no-op. -/
theorem C2_setAt_contract_witness :
    (∃ ts', TimeSeries.SetAt ⟨"k", 0, 2, [F.val 5, F.val 6], F.nan⟩ 2 (F.val 9) =
        some (ts', true) ∧
      ts'.key = "k" ∧ ts'.start = 0 ∧ ts'.step = 2 ∧ ts'.filler = F.nan ∧
      ts'.data = [F.val 5, F.val 6].set (((2 : Int) - 0).tdiv 2).toNat (F.val 9) ∧
      ts'.GetAt 2 = some (F.val 9, true)) ∧
    TimeSeries.SetAt ⟨"k", 0, 2, [F.val 5, F.val 6], F.nan⟩ 5 (F.val 9) =
      some (⟨"k", 0, 2, [F.val 5, F.val 6], F.nan⟩, false) := by
  constructor
  · exact (C2_setAt_contract ⟨"k", 0, 2, [F.val 5, F.val 6], F.nan⟩
      (by decide) 2 (F.val 9)).2 (by decide)
  · exact (C2_setAt_contract ⟨"k", 0, 2, [F.val 5, F.val 6], F.nan⟩
      (by decide) 5 (F.val 9)).1 (by decide)
